import Mathlib

/-!
Verification of the comment persistence layer of src/api/comments.go.

The Go program is embedded shallowly:

* `Comment` mirrors the Go struct `Comment` (four string fields with json
  tags id, name, body, created).
* `marshalChars` embeds `json.Marshal` restricted to this struct: the
  encoder emits the fields in declaration order, each value a JSON string
  with the standard-library escaping (HTML-escaping mode, the default for
  `json.Marshal`).
* `unmarshal` embeds `json.Unmarshal` into a `Comment`: an object with
  string-valued members in any order (unknown keys ignored, later
  duplicates win, missing fields zero-valued, ASCII-case-insensitive key
  fallback, `null` accepted).  Non-string member values and the decoder's
  surrogate-pair handling are outside the modeled grammar; the program's
  encoder never produces them.
* The log file is its character content (`List Char`); `splitLines`
  embeds `bufio.Scanner` with the default `ScanLines` split function.
* `saveComment` and `loadComments` embed the Go functions of the same
  names; file-system effects are made explicit by passing the file
  content and an `AppendIO` record of the outcomes of the fallible file
  operations.  `json.Marshal` of a struct of four strings cannot fail,
  so the dead `err != nil` branch after `json.Marshal` has no outcome
  flag.
* `newUUID`, `postComment`, `renderCommentSection` embed the remaining
  functions; the HTTP response writer is modeled as the list of actions
  performed on it.
-/

/-- The Go struct `Comment` (src/api/comments.go lines 18-23). -/
structure Comment where
  id : String
  name : String
  body : String
  created : String
deriving Repr, DecidableEq

/-- The zero value of the Go struct `Comment`. -/
def emptyComment : Comment := ⟨"", "", "", ""⟩

/-- Lowercase hexadecimal digit, as produced by Go's fmt %x verb and by
the encoding/json escaper. -/
def hexDigit (n : Nat) : Char :=
  if n < 10 then Char.ofNat (48 + n) else Char.ofNat (97 + (n - 10))

/-- Value of a hexadecimal digit character (either case), as accepted by
the encoding/json \u escape decoder. -/
def hexVal (c : Char) : Option Nat :=
  if 48 ≤ c.toNat ∧ c.toNat ≤ 57 then some (c.toNat - 48)
  else if 97 ≤ c.toNat ∧ c.toNat ≤ 102 then some (c.toNat - 97 + 10)
  else if 65 ≤ c.toNat ∧ c.toNat ≤ 70 then some (c.toNat - 65 + 10)
  else none

/-- encoding/json string escaping of one character, in the default
HTML-escaping mode used by `json.Marshal`: quote, backslash, newline,
carriage return and tab get two-character escapes; the HTML-sensitive
characters and the remaining control characters get \u00xx escapes;
U+2028 and U+2029 get \u escapes; everything else is emitted raw. -/
def escapeChar (c : Char) : List Char :=
  if c = '"' then ['\\', '"']
  else if c = '\\' then ['\\', '\\']
  else if c = '\n' then ['\\', 'n']
  else if c = '\r' then ['\\', 'r']
  else if c = '\t' then ['\\', 't']
  else if c = '<' then ['\\', 'u', '0', '0', '3', 'c']
  else if c = '>' then ['\\', 'u', '0', '0', '3', 'e']
  else if c = '&' then ['\\', 'u', '0', '0', '2', '6']
  else if c.toNat < 32 then
    ['\\', 'u', '0', '0', hexDigit (c.toNat / 16), hexDigit (c.toNat % 16)]
  else if c.toNat = 0x2028 then ['\\', 'u', '2', '0', '2', '8']
  else if c.toNat = 0x2029 then ['\\', 'u', '2', '0', '2', '9']
  else [c]

/-- encoding/json escaping of a whole string body (without the
surrounding quotes). -/
def escList (s : List Char) : List Char := s.flatMap escapeChar

/-- Simple (single-letter) escape sequences accepted by the
encoding/json string decoder. -/
def unescapeSimple (c : Char) : Option Char :=
  if c = '"' then some '"'
  else if c = '\\' then some '\\'
  else if c = '/' then some '/'
  else if c = 'b' then some (Char.ofNat 8)
  else if c = 'f' then some (Char.ofNat 12)
  else if c = 'n' then some '\n'
  else if c = 'r' then some '\r'
  else if c = 't' then some '\t'
  else none

/-- encoding/json string-body decoder: consumes characters up to the
closing quote, undoing escapes, and returns the decoded body together
with the input remaining after the closing quote.  Raw control
characters are rejected, as in Go.  (Go additionally combines \u
surrogate pairs; the encoder never emits surrogates.) -/
def decodeStringAux : List Char → Option (List Char × List Char)
  | [] => none
  | '"' :: rest => some ([], rest)
  | '\\' :: 'u' :: p :: q :: u :: v :: rest =>
    match hexVal p, hexVal q, hexVal u, hexVal v with
    | some x1, some x2, some x3, some x4 =>
      (decodeStringAux rest).map
        (fun r => (Char.ofNat (((x1 * 16 + x2) * 16 + x3) * 16 + x4) :: r.1, r.2))
    | _, _, _, _ => none
  | '\\' :: e :: rest =>
    match unescapeSimple e with
    | some c => (decodeStringAux rest).map (fun r => (c :: r.1, r.2))
    | none => none
  | c :: rest =>
    if c.toNat < 32 then none
    else (decodeStringAux rest).map (fun r => (c :: r.1, r.2))

/-- A JSON string literal: an opening quote followed by an escaped body
and a closing quote. -/
def scanString (input : List Char) : Option (List Char × List Char) :=
  match input with
  | '"' :: rest => decodeStringAux rest
  | _ => none

/-- JSON insignificant whitespace (space, tab, newline, carriage
return), skipped by the Go decoder between tokens. -/
def isJsonWS (c : Char) : Bool :=
  c = ' ' || c = '\t' || c = '\n' || c = '\r'

/-- Skip insignificant whitespace. -/
def skipWS : List Char → List Char
  | [] => []
  | c :: rest => if isJsonWS c then skipWS rest else c :: rest

/-- ASCII lowercasing, modeling the case-insensitive field-name fallback
of `json.Unmarshal` (Go folds full Unicode; the keys here are ASCII). -/
def asciiLower (l : List Char) : List Char :=
  l.map (fun c => if 65 ≤ c.toNat ∧ c.toNat ≤ 90 then Char.ofNat (c.toNat + 32) else c)

/-- Assign a decoded object member to the matching struct field, as
`json.Unmarshal` does: match on the json tag (case-insensitively),
ignore unknown keys, let later duplicates overwrite. -/
def setField (c : Comment) (key val : List Char) : Comment :=
  let k := asciiLower key
  if k = ['i', 'd'] then { c with id := String.mk val }
  else if k = ['n', 'a', 'm', 'e'] then { c with name := String.mk val }
  else if k = ['b', 'o', 'd', 'y'] then { c with body := String.mk val }
  else if k = ['c', 'r', 'e', 'a', 't', 'e', 'd'] then { c with created := String.mk val }
  else c

/-- Decode the members of a JSON object into a `Comment`, starting just
after the opening brace (first key expected next), returning the filled
struct and the input remaining after the closing brace.  Fueled by the
input length: each member consumes at least one character. -/
def parseMembers : Nat → List Char → Comment → Except String (Comment × List Char)
  | 0, _, _ => .error "object too long"
  | fuel + 1, input, c =>
    match scanString input with
    | none => .error "invalid object key"
    | some (key, r1) =>
      match skipWS r1 with
      | ':' :: r2 =>
        match scanString (skipWS r2) with
        | none => .error "invalid string value"
        | some (val, r3) =>
          let c2 := setField c key val
          match skipWS r3 with
          | ',' :: r4 => parseMembers fuel (skipWS r4) c2
          | '}' :: r4 => .ok (c2, r4)
          | _ => .error "expected comma or end of object"
      | _ => .error "expected colon after object key"

/-- `json.Unmarshal` of one log line into a `Comment`: leading and
trailing whitespace tolerated, `null` leaves the zero value, otherwise
an object of string members is decoded. -/
def unmarshal (line : List Char) : Except String Comment :=
  match skipWS line with
  | 'n' :: 'u' :: 'l' :: 'l' :: rest =>
    if skipWS rest = [] then .ok emptyComment else .error "trailing data"
  | '{' :: r1 =>
    match skipWS r1 with
    | '}' :: r2 => if skipWS r2 = [] then .ok emptyComment else .error "trailing data"
    | r2 =>
      match parseMembers (line.length + 1) r2 emptyComment with
      | .error e => .error e
      | .ok (c, rest) => if skipWS rest = [] then .ok c else .error "trailing data"
  | _ => .error "invalid record"

/-- One serialized object member: escaped key, colon, escaped string
value, as `json.Marshal` emits it. -/
def member (key : String) (val : String) : List Char :=
  '"' :: escList key.data ++ '"' :: ':' :: '"' :: escList val.data ++ ['"']

/-- `json.Marshal` of a `Comment`: the four fields in struct
declaration order under their json tags. -/
def marshalChars (c : Comment) : List Char :=
  '{' :: member "id" c.id ++ ',' :: member "name" c.name ++
    ',' :: member "body" c.body ++ ',' :: member "created" c.created ++ ['}']

example : unmarshal (marshalChars ⟨"u1", "Ada", "Hello\nworld", "2024-01-01 10:00"⟩)
    = .ok ⟨"u1", "Ada", "Hello\nworld", "2024-01-01 10:00"⟩ := by rfl

/-- bufio's dropCR: strip one trailing carriage return from a line. -/
def dropCR (l : List Char) : List Char :=
  if l.getLast? = some '\r' then l.dropLast else l

/-- Scanner loop with an accumulator holding the current line's
characters in reverse: a newline emits the accumulated line, end of
input emits the final unterminated line if any. -/
def splitLinesAux (cur : List Char) : List Char → List (List Char)
  | [] => if cur = [] then [] else [dropCR cur.reverse]
  | '\n' :: rest => dropCR cur.reverse :: splitLinesAux [] rest
  | ch :: rest => splitLinesAux (ch :: cur) rest

/-- The token stream of `bufio.Scanner` with the default `ScanLines`
split function: lines separated by newlines, each stripped of one
trailing carriage return; a final unterminated line is returned as a
token, and a trailing newline produces no empty final token. -/
def splitLines (content : List Char) : List (List Char) :=
  splitLinesAux [] content

/-- Decode the scanned lines in order, stopping at the first line that
fails to decode — the loop body of `loadComments`. -/
def decodeLines : List (List Char) → Except String (List Comment)
  | [] => .ok []
  | l :: rest =>
    match unmarshal l with
    | .error e => .error e
    | .ok c =>
      match decodeLines rest with
      | .error e => .error e
      | .ok cs => .ok (c :: cs)

/-- `loadComments` (src/api/comments.go lines 93-117): scan the log
file one line at a time, json-decoding each; the first undecodable line
aborts the whole read with its decode error.  The file is passed as its
content; `os.Open` failure is not modeled (the program creates the file
at startup). -/
def loadComments (file : List Char) : Except String (List Comment) :=
  decodeLines (splitLines file)

/-- Outcomes of the fallible file operations inside one `saveComment`
call: whether `os.OpenFile` succeeds, whether each of the two `f.Write`
calls succeeds (a failed write may leave a prefix of its bytes,
`some n` = failed after n characters), and whether `f.Close` succeeds. -/
structure AppendIO where
  openOk : Bool
  writeData : Option Nat
  writeNlOk : Bool
  closeOk : Bool
deriving Repr, DecidableEq

/-- The all-successful I/O outcome. -/
def ioOk : AppendIO := ⟨true, none, true, true⟩

/-- `saveComment` (src/api/comments.go lines 119-140): marshal the
comment, open the file in append mode, write the record and a newline,
close.  The result of both `f.Write` calls is discarded by the Go code,
so only open and close failures are returned; the function returns the
error (if any) together with the resulting file content.
`json.Marshal` of a struct of four strings cannot fail, so the
serialization error branch is unreachable and carries no outcome
flag. -/
def saveComment (comment : Comment) (io : AppendIO) (file : List Char) :
    Except String Unit × List Char :=
  if io.openOk = false then (.error "open failed", file)
  else
    let data := marshalChars comment
    let file1 := file ++ (match io.writeData with
      | none => data
      | some n => data.take n)
    let file2 := file1 ++ (if io.writeNlOk then ['\n'] else [])
    if io.closeOk = false then (.error "close failed", file2)
    else (.ok (), file2)

/-- Sequential successful appends, each through `saveComment`. -/
def appendAll (cs : List Comment) (file : List Char) : List Char :=
  cs.foldl (fun f c => (saveComment c ioOk f).2) file

/-- The file content written by `ensureDataFile` when the log file does
not yet exist. -/
def emptyFile : List Char := []

/-- Outcome of the `crypto/rand.Read` call inside `newUUID`: whether
the read succeeds, and the ten random bytes it yields. -/
structure Entropy where
  ok : Bool
  bytes : Nat → Fin 256

/-- The sixteen bytes assembled by `newUUID` (src/api/comments.go lines
142-159): bytes 0-7 hold the big-endian 64-bit value `ms << 16`
(`binary.BigEndian.PutUint64`), bytes 6-15 are then overwritten by the
random bytes, byte 6 gets its high nibble forced to 7 and byte 8 its
top two bits forced to the RFC 4122 variant pattern. -/
def mkUUIDBytes (ms : Nat) (r : Nat → Fin 256) : Nat → Nat := fun i =>
  if i = 6 then ((r 0).val &&& 0x0f) ||| 0x70
  else if i = 8 then ((r 2).val &&& 0x3f) ||| 0x80
  else if i < 6 then ((ms <<< 16) % 2 ^ 64) / 2 ^ (8 * (7 - i)) % 256
  else (r (i - 6)).val

/-- Two lowercase hex digits of one byte, as fmt's %x verb prints
it. -/
def hexPair (n : Nat) : List Char := [hexDigit (n / 16 % 16), hexDigit (n % 16)]

/-- The `fmt.Sprintf("%08x-%04x-%04x-%04x-%012x", b[0:4], b[4:6],
b[6:8], b[8:10], b[10:16])` formatting: per-byte lowercase hex with
hyphens between the five groups. -/
def formatUUID (b : Nat → Nat) : String :=
  String.mk (hexPair (b 0) ++ hexPair (b 1) ++ hexPair (b 2) ++ hexPair (b 3) ++
    '-' :: hexPair (b 4) ++ hexPair (b 5) ++
    '-' :: hexPair (b 6) ++ hexPair (b 7) ++
    '-' :: hexPair (b 8) ++ hexPair (b 9) ++
    '-' :: hexPair (b 10) ++ hexPair (b 11) ++ hexPair (b 12) ++ hexPair (b 13) ++
      hexPair (b 14) ++ hexPair (b 15))

/-- `newUUID` (src/api/comments.go lines 142-167): on a failed
`rand.Read` the function returns the empty string; otherwise it formats
the assembled bytes. -/
def newUUID (ms : Nat) (e : Entropy) : String :=
  if e.ok = false then "" else formatUUID (mkUUIDBytes ms e.bytes)

/-- Go's `unicode.IsSpace`, the predicate used by
`strings.TrimSpace`. -/
def goIsSpace (c : Char) : Bool :=
  c = ' ' || c = '\t' || c = '\n' || c.toNat = 11 || c.toNat = 12 || c = '\r' ||
    c.toNat = 0x85 || c.toNat = 0xa0 || c.toNat = 0x1680 ||
    (0x2000 ≤ c.toNat && c.toNat ≤ 0x200a) ||
    c.toNat = 0x2028 || c.toNat = 0x2029 || c.toNat = 0x202f ||
    c.toNat = 0x205f || c.toNat = 0x3000

/-- `strings.TrimSpace`: drop leading and trailing Unicode
whitespace. -/
def goTrimSpace (s : String) : String :=
  String.mk (((s.data.dropWhile goIsSpace).reverse.dropWhile goIsSpace).reverse)

/-- Go's `len` on a string: its UTF-8 byte length. -/
def utf8Len (s : String) : Nat := s.utf8ByteSize

/-- One action performed on the `http.ResponseWriter`, in order:
`http.Error`, a header set, or `tmpl.Execute` over the comment data
(`none` is the nil slice that `loadComments` returns on error). -/
inductive HttpAction where
  | httpError (msg : String) (status : Nat)
  | setContentType (v : String)
  | execTemplate (comments : Option (List Comment))
deriving Repr, DecidableEq

/-- `renderCommentSection` (src/api/comments.go lines 72-85): load the
comments under the read lock; on a load error write a 500 response —
and then, the branch not returning, still set the content type and
execute the fragment template over the nil slice; on success set the
content type and execute the template over the loaded comments.
(`tmpl.Execute`'s own error branch writes after the body; it is modeled
as the execute action itself.) -/
def renderCommentSection (file : List Char) : List HttpAction :=
  match loadComments file with
  | .error _ =>
    [.httpError "comment load error" 500,
     .setContentType "text/html; charset=utf-8",
     .execTemplate none]
  | .ok comments =>
    [.setContentType "text/html; charset=utf-8",
     .execTemplate (some comments)]

/-- `getComments` (src/api/comments.go lines 41-43): a plain fetch
renders the comment section. -/
def getComments (file : List Char) : List HttpAction :=
  renderCommentSection file

/-- The per-request environment `postComment` draws on: the millisecond
clock and entropy outcome consumed by `newUUID`, the formatted
minute-granularity clock string, and the file-operation outcomes of the
`saveComment` call. -/
structure Env where
  ms : Nat
  entropy : Entropy
  nowStr : String
  io : AppendIO

/-- `postComment` (src/api/comments.go lines 45-70), after a successful
`ParseForm`, applied to the three submitted form fields: trim name and
body; if the honeypot is non-empty or a trimmed field is empty or over
its byte limit, return immediately (writing nothing to the response and
leaving the file unchanged); otherwise build the new comment, append it
via `saveComment` — whose returned error the Go code discards — and
render the comment section over the resulting file.  Returns the
response actions and the resulting file content. -/
def postComment (name0 body0 honeypot : String) (env : Env) (file : List Char) :
    List HttpAction × List Char :=
  let name := goTrimSpace name0
  let body := goTrimSpace body0
  if honeypot ≠ "" ∨ name = "" ∨ body = "" ∨ utf8Len name > 80 ∨ utf8Len body > 1000 then
    ([], file)
  else
    let newComment : Comment :=
      { id := newUUID env.ms env.entropy
        name := name
        body := body
        created := env.nowStr }
    let saved := saveComment newComment env.io file
    (renderCommentSection saved.2, saved.2)

example : loadComments emptyFile = .ok [] := by rfl
example : splitLines ('a' :: 'b' :: '\n' :: 'c' :: '\n' :: []) = [['a', 'b'], ['c']] := by
  decide
example :
    loadComments (appendAll [⟨"i", "n", "b", "c"⟩, ⟨"j", "m", "d", "e"⟩] emptyFile)
      = .ok [⟨"i", "n", "b", "c"⟩, ⟨"j", "m", "d", "e"⟩] := by rfl

theorem hexVal_hexDigit {m : Nat} (h : m < 16) : hexVal (hexDigit m) = some m := by
  interval_cases m <;> decide

/-- Decoding an escaped character prepends that character to whatever
the rest decodes to. -/
theorem decode_escapeChar (c : Char) (T : List Char) :
    decodeStringAux (escapeChar c ++ T) =
      (decodeStringAux T).map (fun r => (c :: r.1, r.2)) := by
  by_cases h1 : c = '"'
  · subst h1; simp [escapeChar, decodeStringAux, unescapeSimple]
  by_cases h2 : c = '\\'
  · subst h2; simp [escapeChar, decodeStringAux, unescapeSimple, h1]
  by_cases h3 : c = '\n'
  · subst h3; simp [escapeChar, decodeStringAux, unescapeSimple, h1, h2]
  by_cases h4 : c = '\r'
  · subst h4; simp [escapeChar, decodeStringAux, unescapeSimple, h1, h2, h3]
  by_cases h5 : c = '\t'
  · subst h5; simp [escapeChar, decodeStringAux, unescapeSimple, h1, h2, h3, h4]
  by_cases h6 : c = '<'
  · subst h6; simp [escapeChar, decodeStringAux, h1, h2, h3, h4, h5, hexVal]
  by_cases h7 : c = '>'
  · subst h7; simp [escapeChar, decodeStringAux, h1, h2, h3, h4, h5, h6, hexVal]
  by_cases h8 : c = '&'
  · subst h8; simp [escapeChar, decodeStringAux, h1, h2, h3, h4, h5, h6, h7, hexVal]
  by_cases h9 : c.toNat < 32
  · have hdiv : c.toNat / 16 < 16 := by omega
    have hmod : c.toNat % 16 < 16 := by omega
    simp only [escapeChar, h1, h2, h3, h4, h5, h6, h7, h8, h9, if_false, if_true,
      if_neg, if_pos, List.cons_append, List.nil_append]
    rw [show ((('\\' : Char) :: 'u' :: '0' :: '0' :: hexDigit (c.toNat / 16) ::
        hexDigit (c.toNat % 16) :: T)) = '\\' :: 'u' :: '0' :: '0' ::
        hexDigit (c.toNat / 16) :: hexDigit (c.toNat % 16) :: T from rfl]
    simp only [decodeStringAux, hexVal_hexDigit hdiv, hexVal_hexDigit hmod,
      show hexVal '0' = some 0 from by decide]
    have : ((0 * 16 + 0) * 16 + c.toNat / 16) * 16 + c.toNat % 16 = c.toNat := by omega
    rw [this, Char.ofNat_toNat]
  by_cases h10 : c.toNat = 0x2028
  · have hc : c = Char.ofNat 0x2028 := by rw [← h10, Char.ofNat_toNat]
    subst hc
    simp [escapeChar, decodeStringAux, hexVal] at h9 ⊢
  by_cases h11 : c.toNat = 0x2029
  · have hc : c = Char.ofNat 0x2029 := by rw [← h11, Char.ofNat_toNat]
    subst hc
    simp [escapeChar, decodeStringAux, hexVal] at h9 h10 ⊢
  · simp only [escapeChar, h1, h2, h3, h4, h5, h6, h7, h8, h9, h10, h11,
      if_false, List.cons_append, List.nil_append]
    rw [decodeStringAux.eq_def]
    split
    · simp_all
    · simp_all
    · simp_all
    · simp_all
    · rename_i c' rest' heq
      simp only [List.cons.injEq] at heq
      obtain ⟨rfl, rfl⟩ := heq
      simp [h9]

/-- The decoder inverts the encoder on a whole string body: decoding
the escaped body followed by a closing quote yields the original
characters and the input after the quote. -/
theorem decode_escList (s rest : List Char) :
    decodeStringAux (escList s ++ '"' :: rest) = some (s, rest) := by
  induction s with
  | nil => simp [escList, decodeStringAux]
  | cons c s ih =>
    rw [escList, List.flatMap_cons, List.append_assoc, ← escList,
      decode_escapeChar c (escList s ++ '"' :: rest), ih]
    rfl

/-- `scanString` on an encoded member value. -/
theorem scanString_encoded (s rest : List Char) :
    scanString ('"' :: escList s ++ '"' :: rest) = some (s, rest) :=
  decode_escList s rest

theorem skipWS_not_ws {c : Char} (h : isJsonWS c = false) (rest : List Char) :
    skipWS (c :: rest) = c :: rest := by
  simp [skipWS, h]

/-- One step of the member loop on encoder-shaped input: parse the
member, assign the field, and continue according to what follows. -/
theorem parseMembers_member (fuel : Nat) (k v : String) (X : List Char) (c : Comment) :
    parseMembers (fuel + 1) (member k v ++ X) c =
      (match skipWS X with
       | ',' :: r4 => parseMembers fuel (skipWS r4) (setField c k.data v.data)
       | '}' :: r4 => .ok (setField c k.data v.data, r4)
       | _ => .error "expected comma or end of object") := by
  have hassoc : member k v ++ X =
      '"' :: escList k.data ++ '"' :: (':' :: '"' :: escList v.data ++ '"' :: X) := by
    simp [member]
  have hcolon : skipWS (':' :: '"' :: escList v.data ++ '"' :: X) =
      ':' :: '"' :: escList v.data ++ '"' :: X := skipWS_not_ws (by decide) _
  have hquote : skipWS ('"' :: escList v.data ++ '"' :: X) =
      '"' :: escList v.data ++ '"' :: X := skipWS_not_ws (by decide) _
  rw [hassoc]
  simp only [parseMembers, scanString_encoded, hcolon, hquote]
  split
  · rename_i r2 heq
    injection heq with h1 h2
    rw [← h2]
    simp only [List.append_eq]
    rw [hquote, scanString_encoded]
  · rename_i hne
    exact absurd rfl (hne _)

theorem setField_id (c : Comment) (v : List Char) :
    setField c ("id" : String).data v = { c with id := String.mk v } := by
  have h : asciiLower ("id" : String).data = ['i', 'd'] := by decide
  simp [setField, h]

theorem setField_name (c : Comment) (v : List Char) :
    setField c ("name" : String).data v = { c with name := String.mk v } := by
  have h : asciiLower ("name" : String).data = ['n', 'a', 'm', 'e'] := by decide
  simp [setField, h]

theorem setField_body (c : Comment) (v : List Char) :
    setField c ("body" : String).data v = { c with body := String.mk v } := by
  have h : asciiLower ("body" : String).data = ['b', 'o', 'd', 'y'] := by decide
  simp [setField, h]

theorem setField_created (c : Comment) (v : List Char) :
    setField c ("created" : String).data v = { c with created := String.mk v } := by
  have h : asciiLower ("created" : String).data = ['c', 'r', 'e', 'a', 't', 'e', 'd'] := by decide
  simp [setField, h]

theorem skipWS_member_append (k v : String) (Y : List Char) :
    skipWS (member k v ++ Y) = member k v ++ Y := by
  simp only [member, List.cons_append]
  exact skipWS_not_ws (by decide) _

/-- Member step, comma continuation. -/
theorem parseMembers_member_comma (fuel : Nat) (k v : String) (T : List Char) (c : Comment)
    (hT : skipWS T = T) :
    parseMembers (fuel + 1) (member k v ++ ',' :: T) c =
      parseMembers fuel T (setField c k.data v.data) := by
  rw [parseMembers_member]
  show parseMembers fuel (skipWS T) (setField c k.data v.data) =
    parseMembers fuel T (setField c k.data v.data)
  rw [hT]

/-- Member step, closing-brace continuation. -/
theorem parseMembers_member_close (fuel : Nat) (k v : String) (c : Comment) :
    parseMembers (fuel + 1) (member k v ++ ['}']) c =
      .ok (setField c k.data v.data, []) := by
  rw [parseMembers_member]
  rfl

/-- Parsing the four encoded members of a comment rebuilds the
comment. -/
theorem parseMembers_comment (m : Nat) (i n b cr : List Char) :
    parseMembers (m + 4)
      (member "id" ⟨i⟩ ++ ',' :: (member "name" ⟨n⟩ ++ ',' ::
        (member "body" ⟨b⟩ ++ ',' :: (member "created" ⟨cr⟩ ++ ['}'])))) emptyComment
      = .ok (⟨⟨i⟩, ⟨n⟩, ⟨b⟩, ⟨cr⟩⟩, []) := by
  exact (parseMembers_member_comma (m + 3) "id" ⟨i⟩ _ emptyComment
      (skipWS_member_append _ _ _)).trans
    ((parseMembers_member_comma (m + 2) "name" ⟨n⟩ _ _ (skipWS_member_append _ _ _)).trans
      ((parseMembers_member_comma (m + 1) "body" ⟨b⟩ _ _ (skipWS_member_append _ _ _)).trans
        ((parseMembers_member_close m "created" ⟨cr⟩ _).trans (by
          rw [setField_id, setField_name, setField_body, setField_created]))))

/-- The decoder inverts the encoder on whole records: `json.Unmarshal`
recovers exactly the comment that `json.Marshal` serialized. -/
theorem unmarshal_marshal (c : Comment) : unmarshal (marshalChars c) = Except.ok c := by
  obtain ⟨⟨i⟩, ⟨n⟩, ⟨b⟩, ⟨cr⟩⟩ := c
  have hshape : marshalChars ⟨⟨i⟩, ⟨n⟩, ⟨b⟩, ⟨cr⟩⟩ =
      '{' :: (member "id" ⟨i⟩ ++ ',' :: (member "name" ⟨n⟩ ++ ',' ::
        (member "body" ⟨b⟩ ++ ',' :: (member "created" ⟨cr⟩ ++ ['}'])))) := by
    simp [marshalChars]
  rw [hshape, unmarshal]
  rw [skipWS_not_ws (show isJsonWS '{' = false from by decide)]
  obtain ⟨m, hm⟩ : ∃ m,
      (('{' : Char) :: (member "id" ⟨i⟩ ++ ',' :: (member "name" ⟨n⟩ ++ ',' ::
        (member "body" ⟨b⟩ ++ ',' :: (member "created" ⟨cr⟩ ++ ['}']))))).length + 1
        = m + 4 := by
    refine ⟨(('{' : Char) :: (member "id" ⟨i⟩ ++ ',' :: (member "name" ⟨n⟩ ++ ',' ::
      (member "body" ⟨b⟩ ++ ',' :: (member "created" ⟨cr⟩ ++ ['}']))))).length - 3, ?_⟩
    have h3 : 3 ≤ (('{' : Char) :: (member "id" ⟨i⟩ ++ ',' :: (member "name" ⟨n⟩ ++ ',' ::
        (member "body" ⟨b⟩ ++ ',' :: (member "created" ⟨cr⟩ ++ ['}']))))).length := by
      simp [member]
      omega
    omega
  split
  · rename_i rest heq
    injection heq with h1 h2
    exact absurd h1 (by decide)
  · rename_i r1 heq
    injection heq with h1 h2
    rw [← h2, skipWS_member_append]
    split
    · rename_i r2 heq2
      rw [show member "id" (⟨i⟩ : String) ++ ',' :: (member "name" ⟨n⟩ ++ ',' ::
          (member "body" ⟨b⟩ ++ ',' :: (member "created" ⟨cr⟩ ++ ['}']))) =
          '"' :: (escList ("id" : String).data ++ '"' :: ':' :: '"' ::
            escList (⟨i⟩ : String).data ++ '"' :: ',' :: (member "name" ⟨n⟩ ++ ',' ::
            (member "body" ⟨b⟩ ++ ',' :: (member "created" ⟨cr⟩ ++ ['}']))))
          from by simp [member]] at heq2
      injection heq2 with h3 h4
      exact absurd h3 (by decide)
    · rename_i hne
      rw [hm, parseMembers_comment m i n b cr]
      rfl
  · rename_i hne1 hne2
    exact absurd rfl (hne2 _)

theorem hexDigit_ge_space {m : Nat} (h : m < 16) : 32 ≤ (hexDigit m).toNat := by
  interval_cases m <;> decide

/-- Every character the escaper emits is a printable (non-control)
character; in particular no raw newline or carriage return ever reaches
the log file inside a record. -/
theorem escapeChar_ge_space (c : Char) : ∀ x ∈ escapeChar c, 32 ≤ x.toNat := by
  intro x hx
  by_cases h1 : c = '"'
  · subst h1; simp [escapeChar] at hx; rcases hx with rfl | rfl <;> decide
  by_cases h2 : c = '\\'
  · subst h2; simp [escapeChar, h1] at hx; rcases hx with rfl | rfl <;> decide
  by_cases h3 : c = '\n'
  · subst h3; simp [escapeChar, h1, h2] at hx; rcases hx with rfl | rfl <;> decide
  by_cases h4 : c = '\r'
  · subst h4; simp [escapeChar, h1, h2, h3] at hx; rcases hx with rfl | rfl <;> decide
  by_cases h5 : c = '\t'
  · subst h5; simp [escapeChar, h1, h2, h3, h4] at hx; rcases hx with rfl | rfl <;> decide
  by_cases h6 : c = '<'
  · subst h6; simp [escapeChar, h1, h2, h3, h4, h5] at hx
    rcases hx with rfl | rfl | rfl | rfl | rfl <;> decide
  by_cases h7 : c = '>'
  · subst h7; simp [escapeChar, h1, h2, h3, h4, h5, h6] at hx
    rcases hx with rfl | rfl | rfl | rfl | rfl <;> decide
  by_cases h8 : c = '&'
  · subst h8; simp [escapeChar, h1, h2, h3, h4, h5, h6, h7] at hx
    rcases hx with rfl | rfl | rfl | rfl | rfl <;> decide
  by_cases h9 : c.toNat < 32
  · rw [escapeChar] at hx
    simp only [h1, h2, h3, h4, h5, h6, h7, h8, h9, if_false, if_true, if_neg, if_pos,
      List.mem_cons, List.not_mem_nil, or_false] at hx
    rcases hx with rfl | rfl | rfl | rfl | rfl | rfl
    · decide
    · decide
    · decide
    · decide
    · exact hexDigit_ge_space (show c.toNat / 16 < 16 from by omega)
    · exact hexDigit_ge_space (show c.toNat % 16 < 16 from by omega)
  by_cases h10 : c.toNat = 0x2028
  · simp [escapeChar, h1, h2, h3, h4, h5, h6, h7, h8, h9, h10] at hx
    rcases hx with rfl | rfl | rfl | rfl | rfl | rfl <;> decide
  by_cases h11 : c.toNat = 0x2029
  · simp [escapeChar, h1, h2, h3, h4, h5, h6, h7, h8, h9, h10, h11] at hx
    rcases hx with rfl | rfl | rfl | rfl | rfl | rfl <;> decide
  · simp [escapeChar, h1, h2, h3, h4, h5, h6, h7, h8, h9, h10, h11] at hx
    subst hx
    omega

theorem escList_ge_space (s : List Char) : ∀ x ∈ escList s, 32 ≤ x.toNat := by
  intro x hx
  obtain ⟨a, _, ha⟩ := List.mem_flatMap.mp hx
  exact escapeChar_ge_space a x ha

theorem member_ge_space (k v : String) : ∀ x ∈ member k v, 32 ≤ x.toNat := by
  intro x hx
  rw [member] at hx
  rcases List.mem_cons.mp hx with rfl | hx
  · decide
  rcases List.mem_append.mp hx with hx | hx
  · rcases List.mem_append.mp hx with hx | hx
    · exact escList_ge_space _ x hx
    rcases List.mem_cons.mp hx with rfl | hx
    · decide
    rcases List.mem_cons.mp hx with rfl | hx
    · decide
    rcases List.mem_cons.mp hx with rfl | hx
    · decide
    · exact escList_ge_space _ x hx
  · rcases List.mem_cons.mp hx with rfl | hx
    · decide
    · exact absurd hx (List.not_mem_nil x)

/-- Every character of a serialized record is printable; in particular
a record contains no raw newline and does not end in a carriage
return. -/
theorem marshalChars_ge_space (c : Comment) : ∀ x ∈ marshalChars c, 32 ≤ x.toNat := by
  intro x hx
  rw [marshalChars] at hx
  rcases List.mem_cons.mp hx with rfl | hx
  · decide
  rcases List.mem_append.mp hx with hx | hx
  swap
  · rcases List.mem_cons.mp hx with rfl | hx
    · decide
    · exact absurd hx (List.not_mem_nil x)
  rcases List.mem_append.mp hx with hx | hx
  swap
  · rcases List.mem_cons.mp hx with rfl | hx
    · decide
    · exact member_ge_space _ _ x hx
  rcases List.mem_append.mp hx with hx | hx
  swap
  · rcases List.mem_cons.mp hx with rfl | hx
    · decide
    · exact member_ge_space _ _ x hx
  rcases List.mem_append.mp hx with hx | hx
  · exact member_ge_space _ _ x hx
  · rcases List.mem_cons.mp hx with rfl | hx
    · decide
    · exact member_ge_space _ _ x hx

theorem splitLinesAux_cons_ne (cur : List Char) (x : Char) (T : List Char) (hx : x ≠ '\n') :
    splitLinesAux cur (x :: T) = splitLinesAux (x :: cur) T := by
  rw [splitLinesAux.eq_def]
  simp [hx]

/-- The file content obtained by writing each line followed by a
newline. -/
def linesToFile (ls : List (List Char)) : List Char :=
  ls.foldr (fun l acc => l ++ '\n' :: acc) []

theorem dropCR_no_cr (l : List Char) (h : ∀ x ∈ l, x ≠ '\r') : dropCR l = l := by
  rw [dropCR]
  split
  · rename_i hlast
    exfalso
    have hmem : '\r' ∈ l := by
      induction l with
      | nil => simp [List.getLast?] at hlast
      | cons a as ih =>
        cases as with
        | nil =>
          simp [List.getLast?] at hlast
          simp [hlast]
        | cons b bs =>
          rw [List.getLast?_cons_cons] at hlast
          exact List.mem_cons_of_mem _ (ih (fun x hx => h x (List.mem_cons_of_mem _ hx)) hlast)
    exact h '\r' hmem rfl
  · rfl

/-- Scanning a line-complete file recovers exactly the written lines,
provided no line contains a raw newline or carriage return. -/
theorem splitLines_linesToFile (ls : List (List Char))
    (h : ∀ l ∈ ls, ∀ x ∈ l, 32 ≤ x.toNat) :
    splitLines (linesToFile ls) = ls := by
  induction ls with
  | nil => rfl
  | cons l ls ih =>
    have hl : ∀ x ∈ l, 32 ≤ x.toNat := h l (List.mem_cons_self l ls)
    have hrest : splitLinesAux [] (l ++ '\n' :: linesToFile ls) =
        dropCR l :: splitLinesAux [] (linesToFile ls) := by
      have haux : ∀ (ll : List Char) (cur : List Char), (∀ x ∈ ll, 32 ≤ x.toNat) →
          splitLinesAux cur (ll ++ '\n' :: linesToFile ls) =
            dropCR (cur.reverse ++ ll) :: splitLinesAux [] (linesToFile ls) := by
        intro ll
        induction ll with
        | nil =>
          intro cur _
          simp [splitLinesAux]
        | cons x xs ihx =>
          intro cur hll
          have hxne : x ≠ '\n' := by
            intro heq
            have := hll x (List.mem_cons_self x xs)
            rw [heq] at this
            exact absurd this (by decide)
          rw [List.cons_append, splitLinesAux_cons_ne _ _ _ hxne,
            ihx (x :: cur) (fun y hy => hll y (List.mem_cons_of_mem _ hy))]
          simp
      simpa using haux l [] hl
    rw [linesToFile, List.foldr_cons, ← linesToFile, splitLines, hrest]
    rw [dropCR_no_cr l (by
      intro x hx hcr
      have := hl x hx
      rw [hcr] at this
      exact absurd this (by decide))]
    rw [← splitLines, ih (fun l' hl' => h l' (List.mem_cons_of_mem _ hl'))]

/-- Decoding the serialized forms of a comment sequence recovers the
sequence. -/
theorem decodeLines_marshal (cs : List Comment) :
    decodeLines (cs.map marshalChars) = .ok cs := by
  induction cs with
  | nil => rfl
  | cons c cs ih => simp [decodeLines, unmarshal_marshal, ih]

/-- A fully successful `saveComment` returns success and appends
exactly the record plus its newline. -/
theorem saveComment_ioOk (c : Comment) (file : List Char) :
    saveComment c ioOk file = (.ok (), file ++ marshalChars c ++ ['\n']) := by
  simp [saveComment, ioOk]

theorem linesToFile_append (ls1 ls2 : List (List Char)) :
    linesToFile (ls1 ++ ls2) = linesToFile ls1 ++ linesToFile ls2 := by
  induction ls1 with
  | nil => simp [linesToFile]
  | cons l ls ih => simp [linesToFile, List.foldr_cons] at ih ⊢; simp [ih]

/-- Appending comments to a line-complete file produces the
line-complete file of the old lines followed by the new records. -/
theorem appendAll_linesToFile (cs : List Comment) (ls : List (List Char)) :
    appendAll cs (linesToFile ls) = linesToFile (ls ++ cs.map marshalChars) := by
  induction cs generalizing ls with
  | nil => simp [appendAll]
  | cons c cs ih =>
    have hstep : (saveComment c ioOk (linesToFile ls)).2 =
        linesToFile (ls ++ [marshalChars c]) := by
      rw [saveComment_ioOk, linesToFile_append]
      simp [linesToFile]
    show appendAll cs (saveComment c ioOk (linesToFile ls)).2 = _
    rw [hstep, ih (ls ++ [marshalChars c])]
    simp

example : appendAll [] [] = linesToFile [] := rfl

/-- The 128-bit value denoted by sixteen big-endian bytes. -/
def bytesToNat (bs : List Nat) : Nat := bs.foldl (fun a x => a * 256 + x) 0

/-- The sixteen UUID bytes as a list, most significant first. -/
def uuidBytesList (b : Nat → Nat) : List Nat :=
  [b 0, b 1, b 2, b 3, b 4, b 5, b 6, b 7, b 8, b 9, b 10, b 11, b 12, b 13, b 14, b 15]

/-- The 128-bit value of the sixteen UUID bytes. -/
def uuidVal (b : Nat → Nat) : Nat := bytesToNat (uuidBytesList b)

theorem lor_nibble_seven {y : Nat} (h : y < 16) : y ||| 112 = 112 + y := by
  interval_cases y <;> rfl

theorem lor_variant_bits {y : Nat} (h : y < 64) : y ||| 128 = 128 + y := by
  interval_cases y <;> rfl

theorem and_fifteen (x : Nat) : x &&& 15 = x % 16 := by
  have h := Nat.and_pow_two_sub_one_eq_mod x 4
  norm_num at h
  exact h

theorem and_sixtythree (x : Nat) : x &&& 63 = x % 64 := by
  have h := Nat.and_pow_two_sub_one_eq_mod x 6
  norm_num at h
  exact h

/-- The assembled UUID value decomposes into the truncated millisecond
clock in the high 48 bits, the fixed version nibble 7, the fixed
variant bits 10, and the random bytes in the remaining positions. -/
theorem uuidVal_decomposition (ms : Nat) (r : Nat → Fin 256) :
    uuidVal (mkUUIDBytes ms r) =
      (ms % 2 ^ 48) * 2 ^ 80 + 7 * 2 ^ 76 + ((r 0).val % 16) * 2 ^ 72 +
      (r 1).val * 2 ^ 64 + 2 * 2 ^ 62 + ((r 2).val % 64) * 2 ^ 56 +
      (r 3).val * 2 ^ 48 + (r 4).val * 2 ^ 40 + (r 5).val * 2 ^ 32 +
      (r 6).val * 2 ^ 24 + (r 7).val * 2 ^ 16 + (r 8).val * 2 ^ 8 + (r 9).val := by
  have hts : (ms * 2 ^ 16 % 2 ^ 64 / 2 ^ 56 % 256) * 2 ^ 40 +
      (ms * 2 ^ 16 % 2 ^ 64 / 2 ^ 48 % 256) * 2 ^ 32 +
      (ms * 2 ^ 16 % 2 ^ 64 / 2 ^ 40 % 256) * 2 ^ 24 +
      (ms * 2 ^ 16 % 2 ^ 64 / 2 ^ 32 % 256) * 2 ^ 16 +
      (ms * 2 ^ 16 % 2 ^ 64 / 2 ^ 24 % 256) * 2 ^ 8 +
      (ms * 2 ^ 16 % 2 ^ 64 / 2 ^ 16 % 256) = ms % 2 ^ 48 := by
    omega
  have e0 : mkUUIDBytes ms r 0 = (ms <<< 16) % 2 ^ 64 / 2 ^ 56 % 256 := rfl
  have e1 : mkUUIDBytes ms r 1 = (ms <<< 16) % 2 ^ 64 / 2 ^ 48 % 256 := rfl
  have e2 : mkUUIDBytes ms r 2 = (ms <<< 16) % 2 ^ 64 / 2 ^ 40 % 256 := rfl
  have e3 : mkUUIDBytes ms r 3 = (ms <<< 16) % 2 ^ 64 / 2 ^ 32 % 256 := rfl
  have e4 : mkUUIDBytes ms r 4 = (ms <<< 16) % 2 ^ 64 / 2 ^ 24 % 256 := rfl
  have e5 : mkUUIDBytes ms r 5 = (ms <<< 16) % 2 ^ 64 / 2 ^ 16 % 256 := rfl
  have e6 : mkUUIDBytes ms r 6 = ((r 0).val &&& 15) ||| 112 := rfl
  have e7 : mkUUIDBytes ms r 7 = (r 1).val := rfl
  have e8 : mkUUIDBytes ms r 8 = ((r 2).val &&& 63) ||| 128 := rfl
  have e9 : mkUUIDBytes ms r 9 = (r 3).val := rfl
  have e10 : mkUUIDBytes ms r 10 = (r 4).val := rfl
  have e11 : mkUUIDBytes ms r 11 = (r 5).val := rfl
  have e12 : mkUUIDBytes ms r 12 = (r 6).val := rfl
  have e13 : mkUUIDBytes ms r 13 = (r 7).val := rfl
  have e14 : mkUUIDBytes ms r 14 = (r 8).val := rfl
  have e15 : mkUUIDBytes ms r 15 = (r 9).val := rfl
  have h6 : mkUUIDBytes ms r 6 = 112 + (r 0).val % 16 := by
    rw [e6, and_fifteen, lor_nibble_seven (Nat.mod_lt _ (by norm_num))]
  have h8 : mkUUIDBytes ms r 8 = 128 + (r 2).val % 64 := by
    rw [e8, and_sixtythree, lor_variant_bits (Nat.mod_lt _ (by norm_num))]
  rw [uuidVal, uuidBytesList, bytesToNat]
  simp only [List.foldl_cons, List.foldl_nil]
  rw [e0, e1, e2, e3, e4, e5, h6, e7, h8, e9, e10, e11, e12, e13, e14, e15,
    Nat.shiftLeft_eq, ← hts]
  ring

/-- Modelled from the spec: the zero-padded lowercase hexadecimal
digits of a value, most significant first, to a fixed width. -/
def specHexDigits (x : Nat) : Nat → List Char
  | 0 => []
  | k + 1 => specHexDigits (x / 16) k ++ [hexDigit (x % 16)]

/-- Modelled from the spec: the canonical 8-4-4-4-12 hyphenated
lowercase hexadecimal formatting (36 characters) of a 128-bit value. -/
def specCanonicalUUID (x : Nat) : String :=
  let d := specHexDigits x 32
  String.mk (d.take 8 ++ '-' :: ((d.drop 8).take 4 ++ '-' :: ((d.drop 12).take 4 ++
    '-' :: ((d.drop 16).take 4 ++ '-' :: (d.drop 20)))))

theorem specHexDigits_byte (x c : Nat) (k : Nat) (hc : c < 256) :
    specHexDigits (x * 256 + c) (k + 2) =
      specHexDigits x k ++ [hexDigit (c / 16), hexDigit (c % 16)] := by
  have h1 : (x * 256 + c) % 16 = c % 16 := by omega
  have h2 : (x * 256 + c) / 16 = x * 16 + c / 16 := by omega
  have h3 : (x * 16 + c / 16) % 16 = c / 16 := by omega
  have h4 : (x * 16 + c / 16) / 16 = x := by omega
  rw [specHexDigits, h1, h2, specHexDigits, h3, h4]
  simp

theorem specHexDigits_foldl (bs : List Nat) (h : ∀ x ∈ bs, x < 256) :
    ∀ (acc k : Nat),
      specHexDigits (bs.foldl (fun a x => a * 256 + x) acc) (2 * bs.length + k) =
        specHexDigits acc k ++ bs.flatMap (fun c => [hexDigit (c / 16), hexDigit (c % 16)]) := by
  induction bs with
  | nil => intro acc k; simp
  | cons c bs ih =>
    intro acc k
    have hlen : 2 * (c :: bs).length + k = 2 * bs.length + (k + 2) := by
      simp [List.length_cons]
      ring
    rw [hlen, List.foldl_cons,
      ih (fun x hx => h x (List.mem_cons_of_mem _ hx)) (acc * 256 + c) (k + 2),
      specHexDigits_byte acc c k (h c (List.mem_cons_self c bs))]
    simp

/-- The program's per-byte group formatting agrees with the canonical
8-4-4-4-12 hyphenated lowercase hex formatting of the 128-bit value. -/
theorem formatUUID_spec (b : Nat → Nat) (hb : ∀ i, i < 16 → b i < 256) :
    formatUUID b = specCanonicalUUID (uuidVal b) := by
  have hlist : ∀ x ∈ uuidBytesList b, x < 256 := by
    intro x hx
    simp only [uuidBytesList, List.mem_cons, List.not_mem_nil, or_false] at hx
    rcases hx with rfl | rfl | rfl | rfl | rfl | rfl | rfl | rfl | rfl | rfl | rfl | rfl |
      rfl | rfl | rfl | rfl
    all_goals exact hb _ (by norm_num)
  have hd : specHexDigits (List.foldl (fun a x => a * 256 + x) 0 [b 0, b 1, b 2, b 3, b 4, b 5, b 6, b 7, b 8, b 9, b 10, b 11, b 12, b 13, b 14, b 15]) 32 =
      [hexDigit (b 0 / 16),
      hexDigit (b 0 % 16),
      hexDigit (b 1 / 16),
      hexDigit (b 1 % 16),
      hexDigit (b 2 / 16),
      hexDigit (b 2 % 16),
      hexDigit (b 3 / 16),
      hexDigit (b 3 % 16),
      hexDigit (b 4 / 16),
      hexDigit (b 4 % 16),
      hexDigit (b 5 / 16),
      hexDigit (b 5 % 16),
      hexDigit (b 6 / 16),
      hexDigit (b 6 % 16),
      hexDigit (b 7 / 16),
      hexDigit (b 7 % 16),
      hexDigit (b 8 / 16),
      hexDigit (b 8 % 16),
      hexDigit (b 9 / 16),
      hexDigit (b 9 % 16),
      hexDigit (b 10 / 16),
      hexDigit (b 10 % 16),
      hexDigit (b 11 / 16),
      hexDigit (b 11 % 16),
      hexDigit (b 12 / 16),
      hexDigit (b 12 % 16),
      hexDigit (b 13 / 16),
      hexDigit (b 13 % 16),
      hexDigit (b 14 / 16),
      hexDigit (b 14 % 16),
      hexDigit (b 15 / 16),
      hexDigit (b 15 % 16)] :=
    specHexDigits_foldl (uuidBytesList b) hlist 0 0
  have d0 : b 0 / 16 % 16 = b 0 / 16 := Nat.mod_eq_of_lt (by have := hb 0 (by norm_num); omega)
  have d1 : b 1 / 16 % 16 = b 1 / 16 := Nat.mod_eq_of_lt (by have := hb 1 (by norm_num); omega)
  have d2 : b 2 / 16 % 16 = b 2 / 16 := Nat.mod_eq_of_lt (by have := hb 2 (by norm_num); omega)
  have d3 : b 3 / 16 % 16 = b 3 / 16 := Nat.mod_eq_of_lt (by have := hb 3 (by norm_num); omega)
  have d4 : b 4 / 16 % 16 = b 4 / 16 := Nat.mod_eq_of_lt (by have := hb 4 (by norm_num); omega)
  have d5 : b 5 / 16 % 16 = b 5 / 16 := Nat.mod_eq_of_lt (by have := hb 5 (by norm_num); omega)
  have d6 : b 6 / 16 % 16 = b 6 / 16 := Nat.mod_eq_of_lt (by have := hb 6 (by norm_num); omega)
  have d7 : b 7 / 16 % 16 = b 7 / 16 := Nat.mod_eq_of_lt (by have := hb 7 (by norm_num); omega)
  have d8 : b 8 / 16 % 16 = b 8 / 16 := Nat.mod_eq_of_lt (by have := hb 8 (by norm_num); omega)
  have d9 : b 9 / 16 % 16 = b 9 / 16 := Nat.mod_eq_of_lt (by have := hb 9 (by norm_num); omega)
  have d10 : b 10 / 16 % 16 = b 10 / 16 :=
    Nat.mod_eq_of_lt (by have := hb 10 (by norm_num); omega)
  have d11 : b 11 / 16 % 16 = b 11 / 16 :=
    Nat.mod_eq_of_lt (by have := hb 11 (by norm_num); omega)
  have d12 : b 12 / 16 % 16 = b 12 / 16 :=
    Nat.mod_eq_of_lt (by have := hb 12 (by norm_num); omega)
  have d13 : b 13 / 16 % 16 = b 13 / 16 :=
    Nat.mod_eq_of_lt (by have := hb 13 (by norm_num); omega)
  have d14 : b 14 / 16 % 16 = b 14 / 16 :=
    Nat.mod_eq_of_lt (by have := hb 14 (by norm_num); omega)
  have d15 : b 15 / 16 % 16 = b 15 / 16 :=
    Nat.mod_eq_of_lt (by have := hb 15 (by norm_num); omega)
  simp only [formatUUID, specCanonicalUUID, uuidVal, bytesToNat, uuidBytesList]
  rw [hd]
  rw [hexPair, d0, hexPair, d1, hexPair, d2, hexPair, d3, hexPair, d4, hexPair, d5,
    hexPair, d6, hexPair, d7, hexPair, d8, hexPair, d9, hexPair, d10, hexPair, d11,
    hexPair, d12, hexPair, d13, hexPair, d14, hexPair, d15]
  rfl

theorem mkUUIDBytes_lt (ms : Nat) (r : Nat → Fin 256) :
    ∀ i, i < 16 → mkUUIDBytes ms r i < 256 := by
  intro i hi
  interval_cases i
  · exact Nat.mod_lt _ (by norm_num)
  · exact Nat.mod_lt _ (by norm_num)
  · exact Nat.mod_lt _ (by norm_num)
  · exact Nat.mod_lt _ (by norm_num)
  · exact Nat.mod_lt _ (by norm_num)
  · exact Nat.mod_lt _ (by norm_num)
  · rw [show mkUUIDBytes ms r 6 = ((r 0).val &&& 15) ||| 112 from rfl, and_fifteen,
      lor_nibble_seven (Nat.mod_lt _ (by norm_num))]
    omega
  · exact (r 1).isLt
  · rw [show mkUUIDBytes ms r 8 = ((r 2).val &&& 63) ||| 128 from rfl, and_sixtythree,
      lor_variant_bits (Nat.mod_lt _ (by norm_num))]
    omega
  · exact (r 3).isLt
  · exact (r 4).isLt
  · exact (r 5).isLt
  · exact (r 6).isLt
  · exact (r 7).isLt
  · exact (r 8).isLt
  · exact (r 9).isLt

set_option maxHeartbeats 1000000 in
/-- C7: with the entropy source available, every generated identifier
is the canonical 8-4-4-4-12 hyphenated lowercase hex formatting (36
characters) of a 128-bit value whose high-order 48 bits are the
big-endian millisecond Unix clock (truncated to 48 bits), whose version
nibble is 7, whose variant bits are the RFC 4122 pattern 10, and whose
remaining bits are exactly the bytes drawn from the secure random
source. -/
theorem claim_C7_uuid_format (ms : Nat) (e : Entropy) (hok : e.ok = true) :
    newUUID ms e = specCanonicalUUID (uuidVal (mkUUIDBytes ms e.bytes)) ∧
    (newUUID ms e).length = 36 ∧
    uuidVal (mkUUIDBytes ms e.bytes) < 2 ^ 128 ∧
    uuidVal (mkUUIDBytes ms e.bytes) / 2 ^ 80 = ms % 2 ^ 48 ∧
    uuidVal (mkUUIDBytes ms e.bytes) / 2 ^ 76 % 16 = 7 ∧
    uuidVal (mkUUIDBytes ms e.bytes) / 2 ^ 62 % 4 = 2 ∧
    uuidVal (mkUUIDBytes ms e.bytes) =
      (ms % 2 ^ 48) * 2 ^ 80 + 7 * 2 ^ 76 + ((e.bytes 0).val % 16) * 2 ^ 72 +
      (e.bytes 1).val * 2 ^ 64 + 2 * 2 ^ 62 + ((e.bytes 2).val % 64) * 2 ^ 56 +
      (e.bytes 3).val * 2 ^ 48 + (e.bytes 4).val * 2 ^ 40 + (e.bytes 5).val * 2 ^ 32 +
      (e.bytes 6).val * 2 ^ 24 + (e.bytes 7).val * 2 ^ 16 + (e.bytes 8).val * 2 ^ 8 +
      (e.bytes 9).val := by
  have hfmt : newUUID ms e = formatUUID (mkUUIDBytes ms e.bytes) := by
    rw [newUUID, hok]
    rfl
  have hdec := uuidVal_decomposition ms e.bytes
  have hb0 := (e.bytes 0).isLt
  have hb1 := (e.bytes 1).isLt
  have hb2 := (e.bytes 2).isLt
  have hb3 := (e.bytes 3).isLt
  have hb4 := (e.bytes 4).isLt
  have hb5 := (e.bytes 5).isLt
  have hb6 := (e.bytes 6).isLt
  have hb7 := (e.bytes 7).isLt
  have hb8 := (e.bytes 8).isLt
  have hb9 := (e.bytes 9).isLt
  have hmslt : ms % 2 ^ 48 < 2 ^ 48 := Nat.mod_lt _ (by norm_num)
  refine ⟨?_, ?_, ?_, ?_, ?_, ?_, hdec⟩
  · rw [hfmt, formatUUID_spec _ (mkUUIDBytes_lt ms e.bytes)]
  · rw [hfmt]
    rfl
  · rw [hdec]; clear hdec hfmt; omega
  · rw [hdec]; clear hdec hfmt; omega
  · rw [hdec]; clear hdec hfmt; omega
  · rw [hdec]; clear hdec hfmt; omega

/-- C7 witness: the theorem instantiated at the zero clock and the
all-zero entropy outcome. -/
theorem claim_C7_uuid_format_witness :
    newUUID 0 ⟨true, fun _ => (0 : Fin 256)⟩ =
      specCanonicalUUID (uuidVal (mkUUIDBytes 0 (fun _ => (0 : Fin 256)))) ∧
    (newUUID 0 ⟨true, fun _ => (0 : Fin 256)⟩).length = 36 := by
  have h := claim_C7_uuid_format 0 ⟨true, fun _ => (0 : Fin 256)⟩ rfl
  exact ⟨h.1, h.2.1⟩

/-- Reading back a log produced by a sequence of fully successful
appends to an initially empty file yields exactly the appended
comments, in order. -/
theorem loadComments_appendAll (cs : List Comment) :
    loadComments (appendAll cs emptyFile) = Except.ok cs := by
  have hwf : ∀ l ∈ cs.map marshalChars, ∀ x ∈ l, 32 ≤ x.toNat := by
    intro l hl
    obtain ⟨c, _, rfl⟩ := List.mem_map.mp hl
    exact marshalChars_ge_space c
  rw [show emptyFile = linesToFile [] from rfl, appendAll_linesToFile, List.nil_append,
    loadComments, splitLines_linesToFile _ hwf, decodeLines_marshal]

/-- C4: every `saveComment` under fully successful file operations
returns success, and a sequence of such sequential appends to an
initially empty log is returned by `loadComments` afterwards exactly in
append order: append order = file order = creation order. -/
theorem claim_C4_append_load_roundtrip :
    (∀ (c : Comment) (file : List Char), (saveComment c ioOk file).1 = Except.ok ()) ∧
    ∀ cs : List Comment, loadComments (appendAll cs emptyFile) = Except.ok cs := by
  constructor
  · intro c file
    rw [saveComment_ioOk]
  · exact loadComments_appendAll

/-- C8: an empty log file yields the empty comment sequence and no
error. -/
theorem claim_C8_empty_store : loadComments emptyFile = Except.ok [] := rfl

/-- C10: whenever loading the comments fails, the handler first writes
the 500 comment-load-error response and then, the error branch not
returning, still sets the content type and executes the fragment
template over the nil comment sequence on the same response. -/
theorem claim_C10_error_branch_continues (file : List Char) (e : String)
    (h : loadComments file = Except.error e) :
    renderCommentSection file =
      [HttpAction.httpError "comment load error" 500,
       HttpAction.setContentType "text/html; charset=utf-8",
       HttpAction.execTemplate none] := by
  rw [renderCommentSection, h]

/-- C10 witness: a log file holding one undecodable line. -/
theorem claim_C10_error_branch_continues_witness :
    loadComments ['x'] = Except.error "invalid record" ∧
    renderCommentSection ['x'] =
      [HttpAction.httpError "comment load error" 500,
       HttpAction.setContentType "text/html; charset=utf-8",
       HttpAction.execTemplate none] :=
  ⟨rfl, claim_C10_error_branch_continues ['x'] "invalid record" rfl⟩

/-- C3: when the secure random source is unavailable, `newUUID` returns
the empty string — a degraded, empty identifier rather than a loud
error, contradicting the specified contract. -/
theorem claim_C3_entropy_failure_returns_empty (ms : Nat) (e : Entropy)
    (h : e.ok = false) : newUUID ms e = "" := by
  rw [newUUID, h]
  rfl

/-- C3 witness: the failed-entropy outcome at the zero clock. -/
theorem claim_C3_entropy_failure_returns_empty_witness :
    newUUID 0 ⟨false, fun _ => (0 : Fin 256)⟩ = "" :=
  claim_C3_entropy_failure_returns_empty 0 ⟨false, fun _ => (0 : Fin 256)⟩ rfl

/-- C6 (amended): any log file containing an undecodable line makes the
whole read fail with the decode error of the first such line: no
partial sequence is returned and no undecodable line is skipped.  The
error is the json decode error of the offending line alone; it does not
carry the line index. -/
theorem claim_C6_corrupt_line_fails_read (file : List Char)
    (pre post : List (List Char)) (bad : List Char) (e : String)
    (hsplit : splitLines file = pre ++ bad :: post)
    (hpre : ∀ l ∈ pre, ∃ c, unmarshal l = Except.ok c)
    (hbad : unmarshal bad = Except.error e) :
    loadComments file = Except.error e := by
  rw [loadComments, hsplit]
  clear hsplit
  induction pre with
  | nil => simp [decodeLines, hbad]
  | cons l pre ih =>
    obtain ⟨c, hc⟩ := hpre l (List.mem_cons_self l pre)
    have ht := ih (fun l' h' => hpre l' (List.mem_cons_of_mem _ h'))
    simp [decodeLines, hc, ht]

/-- C6 witness: a good record followed by a corrupt line aborts the
read with that line's decode error. -/
theorem claim_C6_corrupt_line_fails_read_witness :
    splitLines (marshalChars ⟨"a", "b", "c", "d"⟩ ++ '\n' :: 'x' :: '\n' :: []) =
      [marshalChars ⟨"a", "b", "c", "d"⟩] ++ ['x'] :: [] ∧
    unmarshal ['x'] = Except.error "invalid record" ∧
    loadComments (marshalChars ⟨"a", "b", "c", "d"⟩ ++ '\n' :: 'x' :: '\n' :: []) =
      Except.error "invalid record" := by
  refine ⟨by decide, rfl, ?_⟩
  exact claim_C6_corrupt_line_fails_read _ [marshalChars ⟨"a", "b", "c", "d"⟩] [] ['x']
    "invalid record" (by decide)
    (fun l hl => by
      rw [List.mem_singleton.mp hl]
      exact ⟨⟨"a", "b", "c", "d"⟩, unmarshal_marshal _⟩)
    rfl

/-- C6 counterexample to the line-index part of the claim: two log
files whose first undecodable line sits at index 0 and at index 1
respectively produce the very same error value, so the returned error
cannot report the offending line index. -/
theorem claim_C6_counterexample :
    loadComments ('x' :: '\n' :: []) =
      loadComments (marshalChars ⟨"a", "b", "c", "d"⟩ ++ '\n' :: 'x' :: '\n' :: []) ∧
    loadComments ('x' :: '\n' :: []) = Except.error "invalid record" ∧
    splitLines ('x' :: '\n' :: []) = ['x'] :: [] ∧
    splitLines (marshalChars ⟨"a", "b", "c", "d"⟩ ++ '\n' :: 'x' :: '\n' :: []) =
      [marshalChars ⟨"a", "b", "c", "d"⟩, ['x']] ∧
    (∃ c, unmarshal (marshalChars ⟨"a", "b", "c", "d"⟩) = Except.ok c) ∧
    unmarshal ['x'] = Except.error "invalid record" := by
  exact ⟨rfl, rfl, rfl, by decide, ⟨⟨"a", "b", "c", "d"⟩, rfl⟩, rfl⟩

/-- C2 (amended): a submission failing the honeypot, emptiness or
byte-length checks is rejected silently — no record is appended and no
error signaled — but the handler returns immediately, writing nothing
to the response: it does not render the current comment sequence. -/
theorem claim_C2_silent_rejection (name0 body0 honeypot : String) (env : Env)
    (file : List Char)
    (h : honeypot ≠ "" ∨ goTrimSpace name0 = "" ∨ goTrimSpace body0 = "" ∨
      utf8Len (goTrimSpace name0) > 80 ∨ utf8Len (goTrimSpace body0) > 1000) :
    postComment name0 body0 honeypot env file = ([], file) := by
  simp only [postComment]
  rw [if_pos h]

/-- C2 witness: a triggered honeypot is rejected with an empty response
and an unchanged file. -/
theorem claim_C2_silent_rejection_witness :
    postComment "Ada" "Hi" "http://spam.example"
      ⟨0, ⟨true, fun _ => (0 : Fin 256)⟩, "t", ioOk⟩ emptyFile = ([], emptyFile) :=
  claim_C2_silent_rejection "Ada" "Hi" "http://spam.example"
    ⟨0, ⟨true, fun _ => (0 : Fin 256)⟩, "t", ioOk⟩ emptyFile (Or.inl (by decide))

/-- C2 counterexample: the rejected submission's response is empty,
while a plain fetch of the same store renders the comment section —
the two responses differ, so a rejection is not identical to a plain
fetch. -/
theorem claim_C2_counterexample :
    postComment "Ada" "Hi" "http://spam.example"
      ⟨0, ⟨true, fun _ => (0 : Fin 256)⟩, "t", ioOk⟩ emptyFile = ([], emptyFile) ∧
    getComments emptyFile =
      [HttpAction.setContentType "text/html; charset=utf-8",
       HttpAction.execTemplate (some [])] ∧
    ([] : List HttpAction) ≠
      [HttpAction.setContentType "text/html; charset=utf-8",
       HttpAction.execTemplate (some [])] := by
  exact ⟨rfl, rfl, by decide⟩

/-- C5: a submission whose trimmed name is exactly 80 bytes and whose
trimmed body is exactly 1000 bytes passes validation and appends a new
record; a trimmed name of 81 bytes, or a trimmed body of 1001 bytes,
is rejected with no record appended and the file unchanged. -/
theorem claim_C5_validation_boundary :
    (∀ (name0 body0 : String) (env : Env) (file : List Char),
      utf8Len (goTrimSpace name0) = 80 → utf8Len (goTrimSpace body0) = 1000 →
      env.io = ioOk →
      postComment name0 body0 "" env file =
        (renderCommentSection (file ++ marshalChars
            ⟨newUUID env.ms env.entropy, goTrimSpace name0, goTrimSpace body0, env.nowStr⟩
          ++ ['\n']),
         file ++ marshalChars
            ⟨newUUID env.ms env.entropy, goTrimSpace name0, goTrimSpace body0, env.nowStr⟩
          ++ ['\n'])) ∧
    (∀ (name0 body0 honeypot : String) (env : Env) (file : List Char),
      utf8Len (goTrimSpace name0) = 81 →
      postComment name0 body0 honeypot env file = ([], file)) ∧
    (∀ (name0 body0 honeypot : String) (env : Env) (file : List Char),
      utf8Len (goTrimSpace body0) = 1001 →
      postComment name0 body0 honeypot env file = ([], file)) := by
  refine ⟨?_, ?_, ?_⟩
  · intro name0 body0 env file hn hb hio
    have hne : goTrimSpace name0 ≠ "" := by
      intro hh
      rw [hh] at hn
      exact absurd hn (by decide)
    have hbe : goTrimSpace body0 ≠ "" := by
      intro hh
      rw [hh] at hb
      exact absurd hb (by decide)
    have hcond : ¬(("" : String) ≠ "" ∨ goTrimSpace name0 = "" ∨ goTrimSpace body0 = "" ∨
        utf8Len (goTrimSpace name0) > 80 ∨ utf8Len (goTrimSpace body0) > 1000) := by
      rintro (hc | hc | hc | hc | hc)
      · exact hc rfl
      · exact hne hc
      · exact hbe hc
      · omega
      · omega
    simp only [postComment]
    rw [if_neg hcond, hio, saveComment_ioOk]
  · intro name0 body0 honeypot env file hn
    simp only [postComment]
    rw [if_pos (Or.inr (Or.inr (Or.inr (Or.inl (by omega)))))]
  · intro name0 body0 honeypot env file hb
    simp only [postComment]
    rw [if_pos (Or.inr (Or.inr (Or.inr (Or.inr (by omega)))))]

set_option maxRecDepth 20000 in
/-- C5 witness: the theorem at an 80-byte name with a 1000-byte body
(accepted) and at an 81-byte name and a 1001-byte body (rejected). -/
theorem claim_C5_validation_boundary_witness :
    utf8Len (goTrimSpace (String.mk (List.replicate 80 'a'))) = 80 ∧
    utf8Len (goTrimSpace (String.mk (List.replicate 1000 'b'))) = 1000 ∧
    postComment (String.mk (List.replicate 80 'a')) (String.mk (List.replicate 1000 'b')) ""
        ⟨0, ⟨true, fun _ => (0 : Fin 256)⟩, "t", ioOk⟩ emptyFile =
      (renderCommentSection (emptyFile ++ marshalChars
          ⟨newUUID 0 ⟨true, fun _ => (0 : Fin 256)⟩,
           goTrimSpace (String.mk (List.replicate 80 'a')),
           goTrimSpace (String.mk (List.replicate 1000 'b')), "t"⟩ ++ ['\n']),
       emptyFile ++ marshalChars
          ⟨newUUID 0 ⟨true, fun _ => (0 : Fin 256)⟩,
           goTrimSpace (String.mk (List.replicate 80 'a')),
           goTrimSpace (String.mk (List.replicate 1000 'b')), "t"⟩ ++ ['\n']) ∧
    postComment (String.mk (List.replicate 81 'a')) (String.mk (List.replicate 1000 'b')) ""
        ⟨0, ⟨true, fun _ => (0 : Fin 256)⟩, "t", ioOk⟩ emptyFile = ([], emptyFile) ∧
    postComment (String.mk (List.replicate 80 'a')) (String.mk (List.replicate 1001 'b')) ""
        ⟨0, ⟨true, fun _ => (0 : Fin 256)⟩, "t", ioOk⟩ emptyFile = ([], emptyFile) := by
  refine ⟨rfl, rfl, ?_, ?_, ?_⟩
  · exact claim_C5_validation_boundary.1 _ _ _ _ rfl rfl rfl
  · exact claim_C5_validation_boundary.2.1 _ _ _ _ _ rfl
  · exact claim_C5_validation_boundary.2.2 _ _ _ _ _ rfl

/-- C1 counterexample: with the open and close calls succeeding but
both write calls failing (writing nothing), `saveComment` still
returns success while the record is absent from the file — and with
the open call failing, `postComment` discards `saveComment`'s error
and renders the ordinary comment section, with no server-error
response ever written. -/
theorem claim_C1_counterexample :
    (saveComment ⟨"i", "n", "b", "t"⟩ ⟨true, some 0, false, true⟩ emptyFile).1
      = Except.ok () ∧
    (saveComment ⟨"i", "n", "b", "t"⟩ ⟨true, some 0, false, true⟩ emptyFile).2
      = emptyFile ∧
    loadComments (saveComment ⟨"i", "n", "b", "t"⟩ ⟨true, some 0, false, true⟩ emptyFile).2
      = Except.ok [] ∧
    postComment "Ada" "Hi" ""
        ⟨0, ⟨true, fun _ => (0 : Fin 256)⟩, "t", ⟨false, none, true, true⟩⟩ emptyFile
      = ([HttpAction.setContentType "text/html; charset=utf-8",
          HttpAction.execTemplate (some [])], emptyFile) ∧
    (saveComment ⟨newUUID 0 ⟨true, fun _ => (0 : Fin 256)⟩, "Ada", "Hi", "t"⟩
        ⟨false, none, true, true⟩ emptyFile).1 = Except.error "open failed" := by
  exact ⟨rfl, rfl, rfl, rfl, rfl⟩

/-- C1 (amended): when the underlying write calls succeed, a successful
return from `saveComment` (equivalently, a successful close after a
successful open) does leave the record durably readable; an open
failure is returned as an error with the file unchanged; but the write
calls' results are ignored, and `postComment` discards `saveComment`'s
result entirely, so an append failure is never surfaced to the HTTP
layer: the response is always either empty (validation rejection) or
the plain rendering of the resulting file. -/
theorem claim_C1_append_error_amended :
    (∀ (c : Comment) (prior : List Comment) (io : AppendIO),
      io.openOk = true → io.writeData = none → io.writeNlOk = true →
      ((saveComment c io (appendAll prior emptyFile)).1 = Except.ok () ↔ io.closeOk = true) ∧
      loadComments (saveComment c io (appendAll prior emptyFile)).2
        = Except.ok (prior ++ [c])) ∧
    (∀ (c : Comment) (file : List Char) (io : AppendIO), io.openOk = false →
      saveComment c io file = (Except.error "open failed", file)) ∧
    (∀ (name0 body0 honeypot : String) (env : Env) (file : List Char),
      (postComment name0 body0 honeypot env file).1 = [] ∨
      (postComment name0 body0 honeypot env file).1 =
        renderCommentSection (postComment name0 body0 honeypot env file).2) := by
  refine ⟨?_, ?_, ?_⟩
  · intro c prior io h1 h2 h3
    obtain ⟨o, wd, wn, cl⟩ := io
    simp only at h1 h2 h3
    subst h1
    subst h2
    subst h3
    have hsame : (saveComment c ⟨true, none, true, cl⟩ (appendAll prior emptyFile)).2
        = (appendAll (prior ++ [c]) emptyFile) := by
      rw [show appendAll (prior ++ [c]) emptyFile
          = (saveComment c ioOk (appendAll prior emptyFile)).2 by
        rw [appendAll, List.foldl_append]
        rfl]
      cases cl <;> rfl
    constructor
    · cases cl <;> simp [saveComment]
    · rw [hsame, loadComments_appendAll]
  · intro c file io h
    rw [saveComment, if_pos (by rw [h])]
  · intro name0 body0 honeypot env file
    by_cases hc : (honeypot ≠ "" ∨ goTrimSpace name0 = "" ∨ goTrimSpace body0 = "" ∨
        utf8Len (goTrimSpace name0) > 80 ∨ utf8Len (goTrimSpace body0) > 1000)
    · left
      simp only [postComment]
      rw [if_pos hc]
    · right
      simp only [postComment]
      rw [if_neg hc]

/-- C1 witness: one all-successful append to an empty log is readable
afterwards, and a failed open is returned as an error with the file
unchanged. -/
theorem claim_C1_append_error_amended_witness :
    loadComments (saveComment ⟨"i", "n", "b", "t"⟩ ioOk (appendAll [] emptyFile)).2
      = Except.ok [⟨"i", "n", "b", "t"⟩] ∧
    saveComment ⟨"i", "n", "b", "t"⟩ ⟨false, none, true, true⟩ emptyFile
      = (Except.error "open failed", emptyFile) :=
  ⟨(claim_C1_append_error_amended.1 ⟨"i", "n", "b", "t"⟩ [] ioOk rfl rfl rfl).2,
   claim_C1_append_error_amended.2.1 ⟨"i", "n", "b", "t"⟩ emptyFile
     ⟨false, none, true, true⟩ rfl⟩
